import Mathlib

/-!
Verification of the MovieReviewsModelRunner adapter that appears in the
dianna tutorial notebooks (tutorials/lime_text.ipynb and
tutorials/rise_text.ipynb).

The adapter is a callable object holding four fields loaded at
construction: a scoring function (run_model), a vocabulary mapping
(vocab.stoi), a minimum filter width (max_filter_size) and a tokenizer.
Its call method normalizes a string to a batch of one, tokenizes and
right-pads each sentence, numericalizes the tokens with an
unknown-token fallback, invokes the scoring function and turns the
logits into an N by 2 matrix of (negativity, positivity) rows via a
sigmoid.

Embedding choices:
- numpy arrays become lists of lists of rationals; the external sigmoid
  (scipy expit) is an abstract parameter since its exact real value is
  not representable, matching the claims which hypothesize only that it
  maps into [0,1];
- a Python exception (a KeyError raised by the vocabulary lookup, or a
  failing float() extraction on a wrongly shaped array) is modelled by
  Option.none;
- the two notebooks define the call method differently: the LIME
  notebook scores the whole batch at once (limeCall below), the RISE
  notebook scores sentence by sentence (riseCall below).
-/

/-- Input to the call method: Python passes either a single string or a
sequence of strings. -/
inductive Sentences where
  | str : String → Sentences
  | batch : List String → Sentences

/-- The adapter state built in MovieReviewsModelRunner.__init__ :
run_model (the externally supplied scoring function over a batch of
numericalized sentences), the vocabulary lookup vocab.stoi (partial:
none when the token is absent), max_filter_size, and the external
tokenizer. -/
structure MovieReviewsModelRunner where
  run_model : List (List Nat) → List (List ℚ)
  stoi : String → Option Nat
  max_filter_size : Nat
  tokenizer : String → List String

/-- Input normalization at the top of __call__ :
if isinstance(sentences, str): sentences = [sentences]. -/
def ensureBatch : Sentences → List String
  | Sentences.str s => [s]
  | Sentences.batch l => l

/-- Tokenize one sentence and right-pad with the pad token when the
tokenizer yields fewer than max_filter_size tokens:
tokens = self.tokenizer(sentence);
if len(tokens) < self.max_filter_size:
  tokens += [pad] * (self.max_filter_size - len(tokens)). -/
def tokenizeAndPad (r : MovieReviewsModelRunner) (sentence : String) : List String :=
  let tokens := r.tokenizer sentence
  if tokens.length < r.max_filter_size then
    tokens ++ List.replicate (r.max_filter_size - tokens.length) "<pad>"
  else
    tokens

/-- One vocabulary lookup with fallback:
self.vocab.stoi[token] if token in self.vocab.stoi else self.vocab.stoi[unk].
The fallback lookup itself raises (none) when the unknown token is
absent from the vocabulary. -/
def lookupToken (stoi : String → Option Nat) (token : String) : Option Nat :=
  match stoi token with
  | some i => some i
  | none => stoi "<unk>"

/-- Numericalize a token sequence left to right; the first raising
lookup aborts the call (Python list comprehension over lookupToken). -/
def numericalize (stoi : String → Option Nat) (tokens : List String) : Option (List Nat) :=
  tokens.mapM (lookupToken stoi)

/-- Elementwise sigmoid over a matrix: np.apply_along_axis(sigmoid, 1, logits)
with the vectorized scipy expit applied to each row. -/
def sigmoidRows (sigmoid : ℚ → ℚ) (logits : List (List ℚ)) : List (List ℚ) :=
  logits.map (fun row => row.map sigmoid)

/-- Column extraction pred[:, 0]: the head of every row; raises (none)
when some row is empty. -/
def column0 (m : List (List ℚ)) : Option (List ℚ) :=
  m.mapM List.head?

/-- np.transpose([negativity, positivity]) : the N by 2 matrix whose
row i is [negativity i, positivity i]. -/
def stackColumns (negativity positivity : List ℚ) : List (List ℚ) :=
  List.zipWith (fun n p => [n, p]) negativity positivity

/-- The call method of the LIME notebook: numericalize every sentence,
score the whole batch with one run_model call, apply the sigmoid along
each row, take column 0 as positivity, complement it for negativity and
stack the two columns. -/
def limeCall (sigmoid : ℚ → ℚ) (r : MovieReviewsModelRunner) (sentences : Sentences) :
    Option (List (List ℚ)) := do
  let sents := ensureBatch sentences
  let tokenized ← sents.mapM (fun sentence => numericalize r.stoi (tokenizeAndPad r sentence))
  let logits := r.run_model tokenized
  let pred := sigmoidRows sigmoid logits
  let positivity ← column0 pred
  let negativity := positivity.map (fun p => 1 - p)
  pure (stackColumns negativity positivity)

/-- Python float() on a numpy array: succeeds exactly when the array
holds a single element; on a 2-D value that means the shape is [[x]]. -/
def floatOfMatrix : List (List ℚ) → Option ℚ
  | [[x]] => some x
  | _ => none

/-- Per-sentence scoring in the RISE notebook:
pred = float(sigmoid(self.run_model([tokens_numerical]))). -/
def riseScore (sigmoid : ℚ → ℚ) (r : MovieReviewsModelRunner) (sentence : String) :
    Option ℚ := do
  let tokens_numerical ← numericalize r.stoi (tokenizeAndPad r sentence)
  floatOfMatrix (sigmoidRows sigmoid (r.run_model [tokens_numerical]))

/-- The call method of the RISE notebook: loop over the sentences,
scoring each one separately, then stack negativity and positivity. -/
def riseCall (sigmoid : ℚ → ℚ) (r : MovieReviewsModelRunner) (sentences : Sentences) :
    Option (List (List ℚ)) := do
  let sents := ensureBatch sentences
  let output ← sents.mapM (riseScore sigmoid r)
  let positivity := output
  let negativity := positivity.map (fun p => 1 - p)
  pure (stackColumns negativity positivity)

/-- State-passing form of the LIME call method: the body only reads the
fields of self and contains no assignment to them, so the state
component is the incoming state. -/
def limeCallS (sigmoid : ℚ → ℚ) (r : MovieReviewsModelRunner) (sentences : Sentences) :
    Option (List (List ℚ)) × MovieReviewsModelRunner :=
  (limeCall sigmoid r sentences, r)

/-- State-passing form of the RISE call method; as with limeCallS the
body assigns to no field of self. -/
def riseCallS (sigmoid : ℚ → ℚ) (r : MovieReviewsModelRunner) (sentences : Sentences) :
    Option (List (List ℚ)) × MovieReviewsModelRunner :=
  (riseCall sigmoid r sentences, r)

/-- An invocation of one of the external collaborators held by the
adapter: the tokenizer on a sentence, one vocabulary lookup, or the
scoring function on a batch. -/
inductive ExtCall where
  | tok : String → ExtCall
  | vocabLookup : String → ExtCall
  | runModel : List (List Nat) → ExtCall

/-- numericalize instrumented with a log of the vocabulary lookups it
performs, in order, stopping at the first raising lookup. -/
def numericalizeT (stoi : String → Option Nat) :
    List String → List ExtCall → Option (List Nat) × List ExtCall
  | [], log => (some [], log)
  | t :: ts, log =>
    let log1 := log ++ [ExtCall.vocabLookup t]
    match lookupToken stoi t with
    | none => (none, log1)
    | some i =>
      let rec2 := numericalizeT stoi ts log1
      (rec2.1.map (fun l => i :: l), rec2.2)

/-- riseScore instrumented with a log of external invocations. -/
def riseScoreT (sigmoid : ℚ → ℚ) (r : MovieReviewsModelRunner) (sentence : String)
    (log : List ExtCall) : Option ℚ × List ExtCall :=
  let log1 := log ++ [ExtCall.tok sentence]
  let res := numericalizeT r.stoi (tokenizeAndPad r sentence) log1
  match res.1 with
  | none => (none, res.2)
  | some tokens_numerical =>
    (floatOfMatrix (sigmoidRows sigmoid (r.run_model [tokens_numerical])),
      res.2 ++ [ExtCall.runModel [tokens_numerical]])

/-- The per-sentence loop of the RISE call method, instrumented. -/
def riseLoopT (sigmoid : ℚ → ℚ) (r : MovieReviewsModelRunner) :
    List String → List ExtCall → Option (List ℚ) × List ExtCall
  | [], log => (some [], log)
  | s :: rest, log =>
    let res := riseScoreT sigmoid r s log
    match res.1 with
    | none => (none, res.2)
    | some p =>
      let rec2 := riseLoopT sigmoid r rest res.2
      (rec2.1.map (fun l => p :: l), rec2.2)

/-- The RISE call method instrumented with the log of every external
invocation it performs. -/
def riseCallT (sigmoid : ℚ → ℚ) (r : MovieReviewsModelRunner) (sentences : Sentences) :
    Option (List (List ℚ)) × List ExtCall :=
  let sents := ensureBatch sentences
  let res := riseLoopT sigmoid r sents []
  match res.1 with
  | none => (none, res.2)
  | some output =>
    (some (stackColumns (output.map (fun p => 1 - p)) output), res.2)

/-- A concrete per-sentence logit used by the witness adapter: the
number of entries of the numericalized sentence. -/
def sampleLogit : List Nat → ℚ := fun xs => (xs.length : ℚ)

/-- A concrete adapter instance used by the witness theorems: a small
vocabulary with the reserved unknown and padding entries, a whitespace
tokenizer, minimum filter width 2, and a scoring function that maps
each numericalized sentence independently to the single logit
sampleLogit. -/
def sampleRunner : MovieReviewsModelRunner where
  run_model := fun xss => xss.map (fun xs => [sampleLogit xs])
  stoi := fun t =>
    if t = "<unk>" then some 0
    else if t = "<pad>" then some 1
    else if t = "good" then some 2
    else if t = "movie" then some 3
    else none
  max_filter_size := 2
  tokenizer := fun s =>
    if s = "good movie" then ["good", "movie"]
    else if s = "" then []
    else [s]

/-- A concrete stand-in for the sigmoid with values inside [0,1]. -/
def sampleSigmoid : ℚ → ℚ := fun _ => 1 / 2

/-! Helper lemmas shared by the claim theorems. -/

theorem mapM_option_some_index {α β : Type} (f : α → Option β) :
    ∀ (l : List α) (bs : List β), l.mapM f = some bs →
      bs.length = l.length ∧
      ∀ (i : Nat) (a : α), l.get? i = some a → ∃ b, f a = some b ∧ bs.get? i = some b := by
  intro l
  induction l with
  | nil =>
    intro bs h
    simp only [List.mapM_nil, pure, Option.some.injEq] at h
    subst h
    exact ⟨rfl, by intro i a ha; simp at ha⟩
  | cons a l ih =>
    intro bs h
    simp only [List.mapM_cons, Option.bind_eq_bind, Option.bind_eq_some, Option.pure_def,
      Option.some.injEq] at h
    obtain ⟨b, hb, bs1, hbs1, hbs⟩ := h
    obtain ⟨hlen, hget⟩ := ih bs1 hbs1
    subst hbs
    refine ⟨by simp [hlen], ?_⟩
    intro i x hx
    cases i with
    | zero =>
      simp only [List.get?, Option.some.injEq] at hx
      subst hx
      exact ⟨b, hb, rfl⟩
    | succ j =>
      simp only [List.get?] at hx ⊢
      exact hget j x hx

theorem mapM_option_map {α β γ : Type} (h : α → Option β) (g : β → γ) :
    ∀ (l : List α),
      l.mapM (fun a => (h a).map g) = (l.mapM h).map (fun bs => bs.map g) := by
  intro l
  induction l with
  | nil => rfl
  | cons a l ih =>
    simp only [List.mapM_cons, ih]
    cases h a with
    | none => simp
    | some b =>
      cases hl : l.mapM h with
      | none => simp [hl]
      | some bs => simp [hl]

theorem stackColumns_map (ps : List ℚ) :
    stackColumns (ps.map (fun p => 1 - p)) ps = ps.map (fun p => [1 - p, p]) := by
  induction ps with
  | nil => rfl
  | cons p ps ih =>
    simp only [stackColumns, List.map_cons, List.zipWith_cons_cons] at ih ⊢
    exact congrArg _ ih

theorem column0_singletons {α : Type} (g : α → ℚ) (l : List α) :
    column0 (l.map (fun x => [g x])) = some (l.map g) := by
  induction l with
  | nil => rfl
  | cons x l ih =>
    simp only [column0] at ih
    simp only [column0, List.map_cons, List.mapM_cons, ih]
    rfl

theorem column0_some_index (m : List (List ℚ)) (pos : List ℚ) (h : column0 m = some pos) :
    pos.length = m.length ∧
    ∀ (i : Nat) (row : List ℚ), m.get? i = some row →
      ∃ x rest, row = x :: rest ∧ pos.get? i = some x := by
  obtain ⟨hlen, hget⟩ := mapM_option_some_index List.head? m pos h
  refine ⟨hlen, ?_⟩
  intro i row hrow
  obtain ⟨x, hx, hpos⟩ := hget i row hrow
  cases row with
  | nil => simp at hx
  | cons y rest =>
    simp only [List.head?, Option.some.injEq] at hx
    subst hx
    exact ⟨y, rest, rfl, hpos⟩

theorem floatOfMatrix_sigmoidRows (sigmoid : ℚ → ℚ) (m : List (List ℚ)) (p : ℚ) :
    floatOfMatrix (sigmoidRows sigmoid m) = some p ↔
      ∃ logit, m = [[logit]] ∧ p = sigmoid logit := by
  constructor
  · intro h
    match m with
    | [] => simp [sigmoidRows, floatOfMatrix] at h
    | [row] =>
      match row with
      | [] => simp [sigmoidRows, floatOfMatrix] at h
      | [x] =>
        simp only [sigmoidRows, List.map_cons, List.map_nil, floatOfMatrix,
          Option.some.injEq] at h
        exact ⟨x, rfl, h.symm⟩
      | x :: y :: rest => simp [sigmoidRows, floatOfMatrix] at h
    | row1 :: row2 :: rest => simp [sigmoidRows, floatOfMatrix] at h
  · rintro ⟨logit, rfl, rfl⟩
    rfl

theorem riseScore_some_iff (sigmoid : ℚ → ℚ) (r : MovieReviewsModelRunner) (s : String)
    (p : ℚ) :
    riseScore sigmoid r s = some p ↔
      ∃ tn logit, numericalize r.stoi (tokenizeAndPad r s) = some tn ∧
        r.run_model [tn] = [[logit]] ∧ p = sigmoid logit := by
  simp only [riseScore, Option.bind_eq_bind, Option.bind_eq_some]
  constructor
  · rintro ⟨tn, htn, hfl⟩
    obtain ⟨logit, hm, hp⟩ := (floatOfMatrix_sigmoidRows sigmoid _ p).mp hfl
    exact ⟨tn, logit, htn, hm, hp⟩
  · rintro ⟨tn, logit, htn, hm, hp⟩
    refine ⟨tn, htn, ?_⟩
    exact (floatOfMatrix_sigmoidRows sigmoid _ p).mpr ⟨logit, hm, hp⟩

theorem riseCall_some_iff (sigmoid : ℚ → ℚ) (r : MovieReviewsModelRunner)
    (inp : Sentences) (out : List (List ℚ)) :
    riseCall sigmoid r inp = some out ↔
      ∃ ps, (ensureBatch inp).mapM (riseScore sigmoid r) = some ps ∧
        out = ps.map (fun p => [1 - p, p]) := by
  simp only [riseCall, Option.bind_eq_bind, Option.bind_eq_some, Option.pure_def,
    Option.some.injEq]
  constructor
  · rintro ⟨ps, hps, hout⟩
    exact ⟨ps, hps, by rw [← hout, stackColumns_map]⟩
  · rintro ⟨ps, hps, rfl⟩
    exact ⟨ps, hps, (stackColumns_map ps)⟩

theorem limeCall_some_iff (sigmoid : ℚ → ℚ) (r : MovieReviewsModelRunner)
    (inp : Sentences) (out : List (List ℚ)) :
    limeCall sigmoid r inp = some out ↔
      ∃ tns pos,
        (ensureBatch inp).mapM (fun s => numericalize r.stoi (tokenizeAndPad r s)) = some tns ∧
        column0 (sigmoidRows sigmoid (r.run_model tns)) = some pos ∧
        out = pos.map (fun p => [1 - p, p]) := by
  simp only [limeCall, Option.bind_eq_bind, Option.bind_eq_some, Option.pure_def,
    Option.some.injEq]
  constructor
  · rintro ⟨tns, htns, pos, hpos, hout⟩
    exact ⟨tns, pos, htns, hpos, by rw [← hout, stackColumns_map]⟩
  · rintro ⟨tns, pos, htns, hpos, rfl⟩
    exact ⟨tns, htns, pos, hpos, (stackColumns_map pos)⟩

theorem sigmoidRows_map_singleton {α : Type} (sigmoid : ℚ → ℚ) (f : α → ℚ) (l : List α) :
    sigmoidRows sigmoid (l.map (fun xs => [f xs])) = l.map (fun xs => [sigmoid (f xs)]) := by
  simp [sigmoidRows, List.map_map, Function.comp]

theorem riseScore_of_rowwise (sigmoid : ℚ → ℚ) (r : MovieReviewsModelRunner)
    (f : List Nat → ℚ)
    (hf : ∀ xss, r.run_model xss = xss.map (fun xs => [f xs])) (s : String) :
    riseScore sigmoid r s =
      (numericalize r.stoi (tokenizeAndPad r s)).map (fun tn => sigmoid (f tn)) := by
  simp only [riseScore, hf]
  cases numericalize r.stoi (tokenizeAndPad r s) with
  | none => rfl
  | some tn => rfl

theorem lime_eq_rise_of_rowwise (sigmoid : ℚ → ℚ) (r : MovieReviewsModelRunner)
    (f : List Nat → ℚ)
    (hf : ∀ xss, r.run_model xss = xss.map (fun xs => [f xs])) (inp : Sentences) :
    limeCall sigmoid r inp = riseCall sigmoid r inp := by
  have hsc : (ensureBatch inp).mapM (riseScore sigmoid r)
      = ((ensureBatch inp).mapM (fun s => numericalize r.stoi (tokenizeAndPad r s))).map
          (fun tns => tns.map (fun tn => sigmoid (f tn))) := by
    have he : riseScore sigmoid r
        = fun s => (numericalize r.stoi (tokenizeAndPad r s)).map (fun tn => sigmoid (f tn)) :=
      funext (riseScore_of_rowwise sigmoid r f hf)
    rw [he]
    exact mapM_option_map _ _ _
  simp only [limeCall, riseCall, hsc]
  cases h : (ensureBatch inp).mapM (fun s => numericalize r.stoi (tokenizeAndPad r s)) with
  | none => rfl
  | some tns =>
    simp only [hf, Option.map_some, Option.bind_eq_bind, Option.some_bind,
      sigmoidRows_map_singleton, column0_singletons]
    rfl

theorem mapM_option_mem {α β : Type} (f : α → Option β) (l : List α) (bs : List β)
    (h : l.mapM f = some bs) : ∀ b ∈ bs, ∃ a, a ∈ l ∧ f a = some b := by
  intro b hb
  obtain ⟨i, hi⟩ := List.mem_iff_get?.mp hb
  obtain ⟨hlen, hget⟩ := mapM_option_some_index f l bs h
  have hil : i < l.length := by
    have := (List.get?_eq_some.mp hi).1
    omega
  have hla : l.get? i = some (l.get ⟨i, hil⟩) := List.get?_eq_get hil
  obtain ⟨b2, hb2, hbs2⟩ := hget i (l.get ⟨i, hil⟩) hla
  rw [hi] at hbs2
  have hbb : b = b2 := by
    simpa using hbs2
  subst hbb
  exact ⟨l.get ⟨i, hil⟩, List.get_mem l i hil, hb2⟩

theorem column0_sigmoidRows_mem (sigmoid : ℚ → ℚ) (L : List (List ℚ)) (pos : List ℚ)
    (h : column0 (sigmoidRows sigmoid L) = some pos) :
    ∀ p ∈ pos, ∃ x, p = sigmoid x := by
  intro p hp
  obtain ⟨row, hrow, hhead⟩ := mapM_option_mem List.head? (sigmoidRows sigmoid L) pos h p hp
  obtain ⟨orig, horig, rfl⟩ := List.mem_map.mp hrow
  cases orig with
  | nil => simp at hhead
  | cons y rest =>
    simp only [List.map_cons, List.head?, Option.some.injEq] at hhead
    exact ⟨y, hhead.symm⟩

theorem rows_of_sigmoid_values (sigmoid : ℚ → ℚ)
    (hs : ∀ x, 0 ≤ sigmoid x ∧ sigmoid x ≤ 1) (ps : List ℚ)
    (hps : ∀ p ∈ ps, ∃ x, p = sigmoid x) :
    ∀ row ∈ ps.map (fun p => [1 - p, p]),
      ∃ n p, row = [n, p] ∧ 0 ≤ n ∧ n ≤ 1 ∧ 0 ≤ p ∧ p ≤ 1 ∧ n + p = 1 := by
  intro row hrow
  obtain ⟨p, hp, rfl⟩ := List.mem_map.mp hrow
  obtain ⟨x, rfl⟩ := hps p hp
  obtain ⟨h0, h1⟩ := hs x
  exact ⟨1 - sigmoid x, sigmoid x, rfl, by linarith, by linarith, h0, h1, by ring⟩

theorem numericalize_cons (stoi : String → Option Nat) (t : String) (ts : List String) :
    numericalize stoi (t :: ts) =
      (lookupToken stoi t).bind (fun i => (numericalize stoi ts).map (fun l => i :: l)) := by
  simp only [numericalize, List.mapM_cons]
  cases lookupToken stoi t with
  | none => rfl
  | some i =>
    cases ts.mapM (lookupToken stoi) with
    | none => rfl
    | some l => rfl

theorem numericalizeT_fst (stoi : String → Option Nat) :
    ∀ (ts : List String) (log : List ExtCall),
      (numericalizeT stoi ts log).1 = numericalize stoi ts := by
  intro ts
  induction ts with
  | nil => intro log; rfl
  | cons t ts ih =>
    intro log
    rw [numericalize_cons]
    simp only [numericalizeT]
    cases h : lookupToken stoi t with
    | none => rfl
    | some i =>
      simp only [ih]
      cases numericalize stoi ts with
      | none => rfl
      | some l => rfl

theorem riseScoreT_fst (sigmoid : ℚ → ℚ) (r : MovieReviewsModelRunner) (s : String)
    (log : List ExtCall) :
    (riseScoreT sigmoid r s log).1 = riseScore sigmoid r s := by
  simp only [riseScoreT, riseScore, Option.bind_eq_bind, numericalizeT_fst]
  cases numericalize r.stoi (tokenizeAndPad r s) with
  | none => rfl
  | some tn => rfl

theorem riseLoopT_fst (sigmoid : ℚ → ℚ) (r : MovieReviewsModelRunner) :
    ∀ (sents : List String) (log : List ExtCall),
      (riseLoopT sigmoid r sents log).1 = sents.mapM (riseScore sigmoid r) := by
  intro sents
  induction sents with
  | nil => intro log; rfl
  | cons s rest ih =>
    intro log
    simp only [riseLoopT, List.mapM_cons, riseScoreT_fst]
    cases riseScore sigmoid r s with
    | none => rfl
    | some p =>
      simp only [ih]
      cases rest.mapM (riseScore sigmoid r) with
      | none => rfl
      | some l => rfl

theorem riseCallT_fst (sigmoid : ℚ → ℚ) (r : MovieReviewsModelRunner) (inp : Sentences) :
    (riseCallT sigmoid r inp).1 = riseCall sigmoid r inp := by
  simp only [riseCallT, riseCall, Option.bind_eq_bind, riseLoopT_fst]
  cases (ensureBatch inp).mapM (riseScore sigmoid r) with
  | none => rfl
  | some l => rfl

/-! The claim theorems. -/

/-- Claim C4: if the tokenizer yields fewer tokens than max_filter_size
the token sequence is right-padded with the pad token to length exactly
max_filter_size before numericalization; if it yields at least
max_filter_size tokens it is passed on unchanged; consequently the
tokenized sentence handed to numericalization has length
max(number of tokens, max_filter_size), which is at least
max_filter_size. -/
theorem C4_tokenize_pad (r : MovieReviewsModelRunner) (sentence : String) :
    ((r.tokenizer sentence).length < r.max_filter_size →
      tokenizeAndPad r sentence =
        r.tokenizer sentence ++
          List.replicate (r.max_filter_size - (r.tokenizer sentence).length) "<pad>" ∧
      (tokenizeAndPad r sentence).length = r.max_filter_size) ∧
    (r.max_filter_size ≤ (r.tokenizer sentence).length →
      tokenizeAndPad r sentence = r.tokenizer sentence) ∧
    (tokenizeAndPad r sentence).length =
      max (r.tokenizer sentence).length r.max_filter_size ∧
    r.max_filter_size ≤ (tokenizeAndPad r sentence).length := by
  have hlen : (tokenizeAndPad r sentence).length =
      max (r.tokenizer sentence).length r.max_filter_size := by
    simp only [tokenizeAndPad]
    by_cases h : (r.tokenizer sentence).length < r.max_filter_size
    · simp only [h, if_true, List.length_append, List.length_replicate]
      omega
    · simp only [h, if_false]
      omega
  refine ⟨?_, ?_, hlen, by rw [hlen]; omega⟩
  · intro h
    have he : tokenizeAndPad r sentence =
        r.tokenizer sentence ++
          List.replicate (r.max_filter_size - (r.tokenizer sentence).length) "<pad>" := by
      simp only [tokenizeAndPad, h, if_true]
    exact ⟨he, by rw [hlen]; omega⟩
  · intro h
    simp only [tokenizeAndPad]
    rw [if_neg (not_lt.mpr h)]

/-- Witness for C4 at the sample adapter and a one-token sentence. -/
theorem C4_tokenize_pad_witness :
    (sampleRunner.tokenizer "xyz").length < sampleRunner.max_filter_size ∧
    tokenizeAndPad sampleRunner "xyz" = ["xyz", "<pad>"] ∧
    (tokenizeAndPad sampleRunner "xyz").length = sampleRunner.max_filter_size := by
  have h := (C4_tokenize_pad sampleRunner "xyz").1 (by decide)
  exact ⟨by decide, h.1.trans (by decide), h.2⟩

/-- Claim C5: when the vocabulary has an entry for the unknown token,
numericalization is total: every token maps to its vocabulary index
when present and to the unknown-token index when absent, and the
raising branch of the lookup is unreachable. -/
theorem C5_numericalize_total (stoi : String → Option Nat) (u : Nat)
    (h : stoi "<unk>" = some u) (tokens : List String) :
    numericalize stoi tokens = some (tokens.map (fun t => (stoi t).getD u)) ∧
    (∀ t v, stoi t = some v → lookupToken stoi t = some v) ∧
    (∀ t, stoi t = none → lookupToken stoi t = some u) := by
  have hlk : ∀ t, lookupToken stoi t = some ((stoi t).getD u) := by
    intro t
    unfold lookupToken
    cases ht : stoi t with
    | none => simpa using h
    | some v => rfl
  refine ⟨?_, ?_, ?_⟩
  · induction tokens with
    | nil => rfl
    | cons t ts ih =>
      rw [numericalize_cons, hlk t, ih]
      rfl
  · intro t v hv
    unfold lookupToken
    rw [hv]
  · intro t hn
    unfold lookupToken
    rw [hn]
    exact h

/-- Witness for C5 at the sample vocabulary, with one known and one
unknown token. -/
theorem C5_numericalize_total_witness :
    sampleRunner.stoi "<unk>" = some 0 ∧
    numericalize sampleRunner.stoi ["good", "zzz"] = some [2, 0] := by
  have h := (C5_numericalize_total sampleRunner.stoi 0 (by decide) ["good", "zzz"]).1
  exact ⟨by decide, h.trans (by decide)⟩

/-- Claim C6: a single string input is normalized to a batch of one, so
calling either implementation on the string s gives the same result as
calling it on the one-element list containing s. -/
theorem C6_single_is_batch_of_one (sigmoid : ℚ → ℚ) (r : MovieReviewsModelRunner)
    (s : String) :
    limeCall sigmoid r (Sentences.str s) = limeCall sigmoid r (Sentences.batch [s]) ∧
    riseCall sigmoid r (Sentences.str s) = riseCall sigmoid r (Sentences.batch [s]) :=
  ⟨rfl, rfl⟩

/-- Claim C8: no call mutates the adapter: in the state-passing form of
both call methods the state component returned is the incoming adapter,
so the vocabulary, max_filter_size, tokenizer and scoring function are
unchanged by every call. -/
theorem C8_adapter_state_unchanged (sigmoid : ℚ → ℚ) (r : MovieReviewsModelRunner)
    (inp : Sentences) :
    (limeCallS sigmoid r inp).2 = r ∧ (riseCallS sigmoid r inp).2 = r :=
  ⟨rfl, rfl⟩

/-- Claim C9: on the empty batch the RISE call method returns the empty
score matrix and performs no external invocation at all: the
instrumented call returns an empty log, so the tokenizer, the
vocabulary lookup and the scoring function are never invoked. -/
theorem C9_empty_batch_no_calls (sigmoid : ℚ → ℚ) (r : MovieReviewsModelRunner) :
    riseCall sigmoid r (Sentences.batch []) = some [] ∧
    riseCallT sigmoid r (Sentences.batch []) = (some [], []) :=
  ⟨rfl, rfl⟩

/-- Claim C7: under the hypothesis that the externally supplied scoring
function maps each numericalized sentence independently to a single
logit (it returns, for any batch, the matrix of one-element rows of
some per-sentence function f), the batched LIME implementation and the
per-sentence RISE implementation of the call method compute equal
outputs on every input. -/
theorem C7_lime_equals_rise (sigmoid : ℚ → ℚ) (r : MovieReviewsModelRunner)
    (f : List Nat → ℚ)
    (hf : ∀ xss, r.run_model xss = xss.map (fun xs => [f xs])) :
    ∀ inp, limeCall sigmoid r inp = riseCall sigmoid r inp :=
  fun inp => lime_eq_rise_of_rowwise sigmoid r f hf inp

/-- Witness for C7 at the sample adapter, whose scoring function is of
the required row-wise form by definition. -/
theorem C7_lime_equals_rise_witness :
    (∀ xss, sampleRunner.run_model xss = xss.map (fun xs => [sampleLogit xs])) ∧
    limeCall sampleSigmoid sampleRunner (Sentences.batch ["good movie", "xyz"]) =
      riseCall sampleSigmoid sampleRunner (Sentences.batch ["good movie", "xyz"]) :=
  ⟨fun _ => rfl,
    C7_lime_equals_rise sampleSigmoid sampleRunner sampleLogit (fun _ => rfl)
      (Sentences.batch ["good movie", "xyz"])⟩

/-- Claim C1: on a batch of N sentences, whenever the call returns, the
output has exactly one row per input sentence in input order: its
length is N and row i is the (negativity, positivity) pair computed
from the i-th sentence alone; the batched LIME output agrees with the
per-sentence RISE output under the row-wise scoring hypothesis. -/
theorem C1_batch_shape_order (sigmoid : ℚ → ℚ) (r : MovieReviewsModelRunner)
    (f : List Nat → ℚ) (sents : List String) (outR outL : List (List ℚ))
    (hf : ∀ xss, r.run_model xss = xss.map (fun xs => [f xs]))
    (hR : riseCall sigmoid r (Sentences.batch sents) = some outR)
    (hL : limeCall sigmoid r (Sentences.batch sents) = some outL) :
    outR.length = sents.length ∧ outL = outR ∧
    ∀ (i : Nat) (s : String), sents.get? i = some s →
      ∃ p, riseScore sigmoid r s = some p ∧ outR.get? i = some [1 - p, p] := by
  have hLR : outL = outR := by
    have he := lime_eq_rise_of_rowwise sigmoid r f hf (Sentences.batch sents)
    rw [he, hR] at hL
    exact (Option.some.inj hL).symm
  obtain ⟨ps, hps, rfl⟩ := (riseCall_some_iff sigmoid r (Sentences.batch sents) outR).mp hR
  simp only [ensureBatch] at hps
  obtain ⟨hlen, hget⟩ := mapM_option_some_index (riseScore sigmoid r) sents ps hps
  refine ⟨by simp [hlen], hLR, ?_⟩
  intro i s hs
  obtain ⟨p, hp, hpsi⟩ := hget i s hs
  refine ⟨p, hp, ?_⟩
  rw [List.get?_map, hpsi]
  rfl

/-- Witness for C1 at the sample adapter on a two-sentence batch. -/
theorem C1_batch_shape_order_witness :
    riseCall sampleSigmoid sampleRunner (Sentences.batch ["good movie", "xyz"]) =
      some [[1/2, 1/2], [1/2, 1/2]] ∧
    ([[1/2, 1/2], [1/2, 1/2]] : List (List ℚ)).length =
      (["good movie", "xyz"] : List String).length ∧
    ∀ (i : Nat) (s : String), (["good movie", "xyz"] : List String).get? i = some s →
      ∃ p, riseScore sampleSigmoid sampleRunner s = some p ∧
        ([[1/2, 1/2], [1/2, 1/2]] : List (List ℚ)).get? i = some [1 - p, p] := by
  have hR : riseCall sampleSigmoid sampleRunner (Sentences.batch ["good movie", "xyz"]) =
      some [[1/2, 1/2], [1/2, 1/2]] := by
    simp [riseCall, riseScore, ensureBatch, numericalize, tokenizeAndPad, sampleRunner,
      sampleSigmoid, sampleLogit, lookupToken, sigmoidRows, floatOfMatrix, stackColumns,
      List.mapM.loop]
    norm_num
  have hL : limeCall sampleSigmoid sampleRunner (Sentences.batch ["good movie", "xyz"]) =
      some [[1/2, 1/2], [1/2, 1/2]] := by
    simp [limeCall, ensureBatch, numericalize, tokenizeAndPad, sampleRunner,
      sampleSigmoid, sampleLogit, lookupToken, sigmoidRows, column0, stackColumns,
      List.mapM.loop]
    norm_num
  have h := C1_batch_shape_order sampleSigmoid sampleRunner sampleLogit
    ["good movie", "xyz"] [[1/2, 1/2], [1/2, 1/2]] [[1/2, 1/2], [1/2, 1/2]]
    (fun _ => rfl) hR hL
  exact ⟨hR, h.1, h.2.2⟩

/-- Claim C2: under the hypothesis that the sigmoid takes values in
[0,1], every row of a returned score matrix (from either
implementation) is a pair with both entries in [0,1] whose two entries
sum exactly to 1, the negative entry being the complement of the
positive one. -/
theorem C2_rows_sum_to_one (sigmoid : ℚ → ℚ) (r : MovieReviewsModelRunner)
    (inp : Sentences) (out : List (List ℚ))
    (hs : ∀ x, 0 ≤ sigmoid x ∧ sigmoid x ≤ 1)
    (h : limeCall sigmoid r inp = some out ∨ riseCall sigmoid r inp = some out) :
    ∀ row ∈ out, ∃ n p, row = [n, p] ∧
      0 ≤ n ∧ n ≤ 1 ∧ 0 ≤ p ∧ p ≤ 1 ∧ n + p = 1 := by
  cases h with
  | inl hl =>
    obtain ⟨tns, pos, htns, hpos, rfl⟩ := (limeCall_some_iff sigmoid r inp out).mp hl
    exact rows_of_sigmoid_values sigmoid hs pos
      (column0_sigmoidRows_mem sigmoid (r.run_model tns) pos hpos)
  | inr hr =>
    obtain ⟨ps, hps, rfl⟩ := (riseCall_some_iff sigmoid r inp out).mp hr
    refine rows_of_sigmoid_values sigmoid hs ps ?_
    intro p hp
    obtain ⟨s, hsm, hsc⟩ :=
      mapM_option_mem (riseScore sigmoid r) (ensureBatch inp) ps hps p hp
    obtain ⟨tn, logit, htn, hm, hpl⟩ := (riseScore_some_iff sigmoid r s p).mp hsc
    exact ⟨logit, hpl⟩

/-- Witness for C2 at the sample adapter on a two-sentence batch. -/
theorem C2_rows_sum_to_one_witness :
    (∀ x, 0 ≤ sampleSigmoid x ∧ sampleSigmoid x ≤ 1) ∧
    ∀ row ∈ ([[(1 : ℚ)/2, 1/2], [1/2, 1/2]] : List (List ℚ)), ∃ n p, row = [n, p] ∧
      0 ≤ n ∧ n ≤ 1 ∧ 0 ≤ p ∧ p ≤ 1 ∧ n + p = 1 := by
  have hs : ∀ x, 0 ≤ sampleSigmoid x ∧ sampleSigmoid x ≤ 1 := by
    intro x
    constructor <;> norm_num [sampleSigmoid]
  have hR : riseCall sampleSigmoid sampleRunner (Sentences.batch ["good movie", "xyz"]) =
      some [[1/2, 1/2], [1/2, 1/2]] := by
    simp [riseCall, riseScore, ensureBatch, numericalize, tokenizeAndPad, sampleRunner,
      sampleSigmoid, sampleLogit, lookupToken, sigmoidRows, floatOfMatrix, stackColumns,
      List.mapM.loop]
    norm_num
  exact ⟨hs, C2_rows_sum_to_one sampleSigmoid sampleRunner
    (Sentences.batch ["good movie", "xyz"]) [[1/2, 1/2], [1/2, 1/2]] hs (Or.inr hR)⟩

/-- Claim C3: every returned row is the pair
(1 - sigmoid(logit), sigmoid(logit)) in that column order, where the
logit is produced by the scoring function for that sentence: in the
per-sentence RISE form the single entry of run_model on the singleton
batch of sentence i, in the batched LIME form the column-0 entry of row
i of run_model on the whole batch. -/
theorem C3_negativity_positivity (sigmoid : ℚ → ℚ) (r : MovieReviewsModelRunner)
    (sents : List String) (outR outL : List (List ℚ)) (tns : List (List Nat))
    (hR : riseCall sigmoid r (Sentences.batch sents) = some outR)
    (hL : limeCall sigmoid r (Sentences.batch sents) = some outL)
    (htns : sents.mapM (fun s => numericalize r.stoi (tokenizeAndPad r s)) = some tns) :
    (∀ (i : Nat) (s : String), sents.get? i = some s → ∃ tn logit,
        numericalize r.stoi (tokenizeAndPad r s) = some tn ∧
        r.run_model [tn] = [[logit]] ∧
        outR.get? i = some [1 - sigmoid logit, sigmoid logit]) ∧
    (∀ (i : Nat) (row : List ℚ), outL.get? i = some row → ∃ logit rest,
        (r.run_model tns).get? i = some (logit :: rest) ∧
        row = [1 - sigmoid logit, sigmoid logit]) := by
  constructor
  · obtain ⟨ps, hps, rfl⟩ := (riseCall_some_iff sigmoid r (Sentences.batch sents) outR).mp hR
    simp only [ensureBatch] at hps
    obtain ⟨hlen, hget⟩ := mapM_option_some_index (riseScore sigmoid r) sents ps hps
    intro i s hs
    obtain ⟨p, hp, hpsi⟩ := hget i s hs
    obtain ⟨tn, logit, htn, hm, hpl⟩ := (riseScore_some_iff sigmoid r s p).mp hp
    subst hpl
    refine ⟨tn, logit, htn, hm, ?_⟩
    rw [List.get?_map, hpsi]
    rfl
  · obtain ⟨tns2, pos, htns2, hpos, rfl⟩ :=
      (limeCall_some_iff sigmoid r (Sentences.batch sents) outL).mp hL
    simp only [ensureBatch] at htns2
    rw [htns] at htns2
    have htt : tns2 = tns := (Option.some.inj htns2).symm
    rw [htt] at hpos
    intro i row hrow
    rw [List.get?_map] at hrow
    cases hpi : pos.get? i with
    | none =>
      rw [hpi] at hrow
      simp at hrow
    | some p =>
      rw [hpi] at hrow
      simp only [Option.map_some', Option.some.injEq] at hrow
      obtain ⟨hlen2, hcol⟩ := column0_some_index _ pos hpos
      have hip : i < pos.length := (List.get?_eq_some.mp hpi).1
      have him : i < (sigmoidRows sigmoid (r.run_model tns)).length := by
        rw [← hlen2]
        exact hip
      have hmi : (sigmoidRows sigmoid (r.run_model tns)).get? i =
          some ((sigmoidRows sigmoid (r.run_model tns)).get ⟨i, him⟩) :=
        List.get?_eq_get him
      obtain ⟨x, rest0, hmrow, hposx⟩ :=
        hcol i ((sigmoidRows sigmoid (r.run_model tns)).get ⟨i, him⟩) hmi
      rw [hpi] at hposx
      have hxp : p = x := Option.some.inj hposx
      subst hxp
      have hmap : (sigmoidRows sigmoid (r.run_model tns)).get? i =
          ((r.run_model tns).get? i).map (fun lrow => lrow.map sigmoid) := by
        simp only [sigmoidRows]
        exact List.get?_map (fun lrow => lrow.map sigmoid) (r.run_model tns) i
      rw [hmi, hmrow] at hmap
      cases hLi : (r.run_model tns).get? i with
      | none =>
        rw [hLi] at hmap
        simp at hmap
      | some lrow =>
        rw [hLi] at hmap
        simp only [Option.map_some', Option.some.injEq] at hmap
        cases lrow with
        | nil => simp at hmap
        | cons a as =>
          simp only [List.map_cons, List.cons.injEq] at hmap
          refine ⟨a, as, rfl, ?_⟩
          rw [← hrow, hmap.1]

/-- Witness for C3 at the sample adapter, first sentence of a
two-sentence batch. -/
theorem C3_negativity_positivity_witness :
    ∃ tn logit,
      numericalize sampleRunner.stoi (tokenizeAndPad sampleRunner "good movie") = some tn ∧
      sampleRunner.run_model [tn] = [[logit]] ∧
      ([[(1 : ℚ)/2, 1/2], [1/2, 1/2]] : List (List ℚ)).get? 0 =
        some [1 - sampleSigmoid logit, sampleSigmoid logit] := by
  have hR : riseCall sampleSigmoid sampleRunner (Sentences.batch ["good movie", "xyz"]) =
      some [[1/2, 1/2], [1/2, 1/2]] := by
    simp [riseCall, riseScore, ensureBatch, numericalize, tokenizeAndPad, sampleRunner,
      sampleSigmoid, sampleLogit, lookupToken, sigmoidRows, floatOfMatrix, stackColumns,
      List.mapM.loop]
    norm_num
  have hL : limeCall sampleSigmoid sampleRunner (Sentences.batch ["good movie", "xyz"]) =
      some [[1/2, 1/2], [1/2, 1/2]] := by
    simp [limeCall, ensureBatch, numericalize, tokenizeAndPad, sampleRunner,
      sampleSigmoid, sampleLogit, lookupToken, sigmoidRows, column0, stackColumns,
      List.mapM.loop]
    norm_num
  have htns : (["good movie", "xyz"] : List String).mapM
      (fun s => numericalize sampleRunner.stoi (tokenizeAndPad sampleRunner s)) =
      some [[2, 3], [0, 1]] := by decide
  exact (C3_negativity_positivity sampleSigmoid sampleRunner ["good movie", "xyz"]
    [[1/2, 1/2], [1/2, 1/2]] [[1/2, 1/2], [1/2, 1/2]] [[2, 3], [0, 1]]
    hR hL htns).1 0 "good movie" rfl

/-- Claim C10: the call methods are pure functions of the adapter state
and the input: two calls with extensionally equal sigmoid, scoring
function, vocabulary, max_filter_size and tokenizer return equal
outputs on every input. -/
theorem C10_deterministic (sigmoid1 sigmoid2 : ℚ → ℚ) (r1 r2 : MovieReviewsModelRunner)
    (hsg : ∀ x, sigmoid1 x = sigmoid2 x)
    (hrm : ∀ xss, r1.run_model xss = r2.run_model xss)
    (hst : ∀ t, r1.stoi t = r2.stoi t)
    (hmf : r1.max_filter_size = r2.max_filter_size)
    (htk : ∀ s, r1.tokenizer s = r2.tokenizer s) :
    ∀ inp, limeCall sigmoid1 r1 inp = limeCall sigmoid2 r2 inp ∧
      riseCall sigmoid1 r1 inp = riseCall sigmoid2 r2 inp := by
  have hs : sigmoid1 = sigmoid2 := funext hsg
  have hr : r1 = r2 := by
    cases r1
    cases r2
    simp only [MovieReviewsModelRunner.mk.injEq]
    exact ⟨funext hrm, funext hst, hmf, funext htk⟩
  subst hs
  subst hr
  exact fun inp => ⟨rfl, rfl⟩

/-- Witness for C10 at the sample adapter. -/
theorem C10_deterministic_witness :
    limeCall sampleSigmoid sampleRunner (Sentences.batch ["good movie"]) =
      limeCall sampleSigmoid sampleRunner (Sentences.batch ["good movie"]) ∧
    riseCall sampleSigmoid sampleRunner (Sentences.batch ["good movie"]) =
      riseCall sampleSigmoid sampleRunner (Sentences.batch ["good movie"]) :=
  C10_deterministic sampleSigmoid sampleSigmoid sampleRunner sampleRunner
    (fun _ => rfl) (fun _ => rfl) (fun _ => rfl) rfl (fun _ => rfl)
    (Sentences.batch ["good movie"])
